import Mathlib

/-!
Verification of the visual-sitemap client and crawl-engine specification.

The definitions below are a shallow embedding of the repository sources:
the sitemap API client (frontend/src/api/sitemap.ts), the scan handler of
the App page, the SitemapGraph link filter, the token store and the device
fingerprint cache.  The crawl engine itself lives in a backend that is not
part of the sources, so it is modelled from the specification where
explicitly noted.
-/

namespace VisualSitemap

/-! ## A model of JSON values

The client exchanges JSON bodies with the backend.  Numbers are modelled as
integers; the claims never compute with fractional values. -/

inductive Json where
  | null : Json
  | bool (b : Bool) : Json
  | num (n : Int) : Json
  | str (s : String) : Json
  | arr (elems : List Json) : Json
  | obj (fields : List (String × Json)) : Json
deriving Repr

/-- Looks up a field of a JSON object; any field of a non-object value is
absent, mirroring property access on a parsed JSON value (the null case is
handled separately by the caller that models property access on null). -/
def Json.getField : Json → String → Option Json
  | .obj fields, k => fieldLookup fields k
  | _, _ => none
where fieldLookup : List (String × Json) → String → Option Json
  | [], _ => none
  | (k2, v) :: rest, k => if k2 = k then some v else fieldLookup rest k

/-- Keys of a JSON object, in order; empty for non-objects. -/
def Json.objKeys : Json → List String
  | .obj fields => fields.map Prod.fst
  | _ => []

/-- Truthiness of a JSON value under JavaScript coercion rules. -/
def Json.jsTruthy : Json → Bool
  | .null => false
  | .bool b => b
  | .num n => decide (n ≠ 0)
  | .str s => decide (s ≠ "")
  | .arr _ => true
  | .obj _ => true

/-- String coercion of a JSON value under JavaScript rules, as applied by
the Error constructor to a non-string argument. -/
def Json.jsText : Json → String
  | .null => "null"
  | .bool b => if b then "true" else "false"
  | .num n => toString n
  | .str s => s
  | .arr [] => ""
  | .arr [e] => jsText e
  | .arr (e :: f :: rest) => jsText e ++ "," ++ jsText (.arr (f :: rest))
  | .obj _ => "[object Object]"
termination_by j => sizeOf j
decreasing_by all_goals simp_wf <;> omega

/-! ## The sitemap data model (frontend/src/api/sitemap.ts)

Typed structures mirroring the TypeScript interfaces PageNode, PageLink,
SitemapResult and CrawlRequest. -/

/-- Status values of the SitemapResult union type. -/
inductive Status where
  | pending : Status
  | crawling : Status
  | completed : Status
  | failed : Status
deriving Repr, DecidableEq

/-- String form of a status, as it appears on the wire. -/
def Status.text : Status → String
  | .pending => "pending"
  | .crawling => "crawling"
  | .completed => "completed"
  | .failed => "failed"

structure PageNode where
  id : String
  url : String
  title : Option String
  depth : Nat
  outgoing_links : Nat
  incoming_links : Nat
deriving Repr, DecidableEq

structure PageLink where
  source : String
  target : String
deriving Repr, DecidableEq

structure SitemapResult where
  status : Status
  root_url : String
  total_pages : Nat
  total_links : Nat
  nodes : List PageNode
  links : List PageLink
  crawl_time_seconds : Int
  error : Option String
deriving Repr, DecidableEq

structure CrawlRequest where
  url : String
  max_depth : Option Nat
  max_pages : Option Nat
deriving Repr, DecidableEq

/-- JSON form of a page node: exactly the fields of the PageNode interface. -/
def jsonOfPageNode (n : PageNode) : Json :=
  .obj [("id", .str n.id), ("url", .str n.url),
        ("title", match n.title with | some t => .str t | none => .null),
        ("depth", .num n.depth), ("outgoing_links", .num n.outgoing_links),
        ("incoming_links", .num n.incoming_links)]

/-- JSON form of a page link: exactly the fields of the PageLink interface. -/
def jsonOfPageLink (l : PageLink) : Json :=
  .obj [("source", .str l.source), ("target", .str l.target)]

/-- JSON form of a crawl result: exactly the fields of the SitemapResult
interface, with the optional error field present only when set. -/
def jsonOfSitemapResult (r : SitemapResult) : Json :=
  .obj ([("status", .str r.status.text), ("root_url", .str r.root_url),
         ("total_pages", .num r.total_pages), ("total_links", .num r.total_links),
         ("nodes", .arr (r.nodes.map jsonOfPageNode)),
         ("links", .arr (r.links.map jsonOfPageLink)),
         ("crawl_time_seconds", .num r.crawl_time_seconds)] ++
        (match r.error with | some e => [("error", .str e)] | none => []))

/-! ## The crawlSitemap client (frontend/src/api/sitemap.ts)

crawlSitemap performs one POST and inspects the single response.  A
response is modelled by its ok flag and the outcome of response.json():
none when the body cannot be parsed (the json() promise rejects). -/

structure Response where
  ok : Bool
  json : Option Json

/-- Value carried by a rejection of the promise returned by crawlSitemap:
an Error with a message thrown by the function itself, the body-parse
rejection propagated from response.json() on the ok path, or the TypeError
raised by reading the detail property of a null body. -/
inductive Raised where
  | thrown (msg : String) : Raised
  | parseFailure : Raised
  | typeError : Raised
deriving Repr, DecidableEq

/-- Embedding of crawlSitemap applied to the one response of its single
fetch.  On an ok response the parsed body is returned unchanged; on a
non-ok response the body is parsed (with a detail fallback of
Unknown error when parsing fails) and an Error with message
error.detail or Crawl failed is thrown. -/
def crawlSitemap (resp : Response) : Except Raised Json :=
  if resp.ok then
    match resp.json with
    | some j => .ok j
    | none => .error .parseFailure
  else
    match resp.json with
    | none => .error (.thrown "Unknown error")
    | some .null => .error .typeError
    | some j =>
        .error (.thrown (match j.getField "detail" with
          | some d => if d.jsTruthy then d.jsText else "Crawl failed"
          | none => "Crawl failed"))

structure HttpRequest where
  url : String
  method : String
  headers : List (String × String)
  body : CrawlRequest
deriving Repr, DecidableEq

/-- The single request crawlSitemap issues: a POST of the JSON request body
to API_BASE ++ /api/v1/sitemap/crawl/sync. -/
def crawlSitemapRequest (apiBase : String) (request : CrawlRequest) : HttpRequest :=
  { url := apiBase ++ "/api/v1/sitemap/crawl/sync"
    method := "POST"
    headers := [("Content-Type", "application/json")]
    body := request }

/-- Network trace of one crawlSitemap invocation: the list of requests it
performs and the value it returns or throws given the single response. -/
def crawlSitemapTrace (apiBase : String) (request : CrawlRequest)
    (resp : Response) : List HttpRequest × Except Raised Json :=
  ([crawlSitemapRequest apiBase request], crawlSitemap resp)

/-! ## The App scan flow (frontend/src/App.tsx)

The App keeps a url string, a depth (useState 3) and a maxPages
(useState 100); the depth select offers 1..5 and the maxPages select
offers 25/50/100/200/500.  handleScan validates the url with the URL
constructor, prefixing https:// when the raw input does not start with
http, and on success calls crawlSitemap once with the serialized url and
both options. -/

def initialDepth : Nat := 3

def initialMaxPages : Nat := 100

def depthOptions : List Nat := [1, 2, 3, 4, 5]

def maxPagesOptions : List Nat := [25, 50, 100, 200, 500]

/-- Model of the startsWith method of JavaScript strings. -/
def jsStartsWith (s pre : String) : Bool :=
  List.isPrefixOf pre.data s.data

/-- Model of the trim method of JavaScript strings: whitespace is removed
from both ends. -/
def jsTrim (s : String) : String :=
  String.mk (((s.data.dropWhile Char.isWhitespace).reverse.dropWhile
    Char.isWhitespace).reverse)

/-- String handed to the URL constructor by handleScan: the raw input,
with https:// prepended when it does not start with http. -/
def toParse (url : String) : String :=
  if jsStartsWith url "http" then url else "https://" ++ url

/-- String the claim text describes: https:// is prepended exactly when
the trimmed input does not start with http. -/
def toParseClaim (url : String) : String :=
  if jsStartsWith (jsTrim url) "http" then url else "https://" ++ url

inductive ScanOutcome where
  | invalidUrl : ScanOutcome
  | scanned (request : CrawlRequest) : ScanOutcome
deriving Repr, DecidableEq

/-- Embedding of handleScan up to the point where crawlSitemap is called,
parameterized by the URL constructor, modelled as a function from a string
to the serialized url (none when the constructor throws).  An unparseable
input reports the invalid-url error and returns before any request. -/
def handleScan (parseURL : String → Option String) (depth maxPages : Nat)
    (url : String) : ScanOutcome :=
  match parseURL (toParse url) with
  | none => .invalidUrl
  | some u => .scanned { url := u, max_depth := some depth, max_pages := some maxPages }

/-- Requests issued by one scan: none when validation fails, otherwise the
single POST performed by crawlSitemap. -/
def scanRequests (parseURL : String → Option String) (apiBase : String)
    (depth maxPages : Nat) (url : String) : List HttpRequest :=
  match handleScan parseURL depth maxPages url with
  | .invalidUrl => []
  | .scanned request => [crawlSitemapRequest apiBase request]

/-! ## A model of the WHATWG URL constructor

The scan handler relies on the platform URL class.  The model below covers
the behaviors the client exercises: tab and newline characters are removed
anywhere in the input, leading and trailing C0-control-or-space characters
are stripped, a scheme is required, and for the http and https schemes an
authority is parsed whose host must be nonempty and free of forbidden host
code points and whose port must be numeric.  Serialization lowercases the
scheme and host and emits a slash for an empty path. -/

def isC0OrSpace (c : Char) : Bool := c.toNat ≤ 32

def isForbiddenHostChar (c : Char) : Bool :=
  c.toNat ≤ 32 || c = '#' || c = '/' || c = ':' || c = '<' || c = '>' ||
  c = '?' || c = '@' || c = '[' || c = '\\' || c = ']' || c = '^' || c = '|'

def isSchemeTailChar (c : Char) : Bool :=
  c.isAlphanum || c = '+' || c = '-' || c = '.'

/-- Splits off a scheme: an initial letter, scheme characters, then a
colon; returns the scheme and the remainder after the colon. -/
def takeScheme : List Char → Option (List Char × List Char)
  | [] => none
  | c :: rest => if c.isAlpha then schemeTail [c] rest else none
where schemeTail (acc : List Char) : List Char → Option (List Char × List Char)
  | [] => none
  | c :: rest =>
      if c = ':' then some (acc.reverse, rest)
      else if isSchemeTailChar c then schemeTail (c :: acc) rest
      else none

/-- Authority and path parsing for the special http and https schemes. -/
def parseSpecialRest (scheme : String) (rest : List Char) : Option String :=
  let rest1 := rest.dropWhile (fun c => c = '/' || c = '\\')
  let auth := rest1.takeWhile (fun c => !(c = '/' || c = '?' || c = '#' || c = '\\'))
  let after := rest1.drop auth.length
  let hostport := (auth.reverse.takeWhile (fun c => c ≠ '@')).reverse
  let revhp := hostport.reverse
  let host := if hostport.contains ':' then ((revhp.dropWhile (fun c => c ≠ ':')).drop 1).reverse
              else hostport
  let port := if hostport.contains ':' then some ((revhp.takeWhile (fun c => c ≠ ':')).reverse)
              else none
  if host.isEmpty then none
  else if host.any isForbiddenHostChar then none
  else if !(match port with | some p => p.all Char.isDigit | none => true) then none
  else
    let portPart := match port with
      | some [] => ""
      | some p => ":" ++ String.mk p
      | none => ""
    let pathPart := match after with
      | [] => "/"
      | '/' :: _ => String.mk after
      | _ => "/" ++ String.mk after
    some (scheme ++ "://" ++ String.mk (host.map Char.toLower) ++ portPart ++ pathPart)

/-- Model of the URL constructor followed by toString: none when the
constructor throws. -/
def parseModel (input : String) : Option String :=
  let cleaned := ((input.data.filter
      (fun c => !(c = '\t' || c = '\n' || c = '\r'))).dropWhile isC0OrSpace).reverse
      |>.dropWhile isC0OrSpace |>.reverse
  match takeScheme cleaned with
  | none => none
  | some (schemeChars, rest) =>
      let scheme := String.mk (schemeChars.map Char.toLower)
      if scheme = "http" || scheme = "https" then parseSpecialRest scheme rest
      else some (String.mk cleaned)

/-! ## The token store (frontend/src/stores/tokenStore.ts)

Zustand store persisting the scan credits of the user. -/

structure TokenInfo where
  token : String
  remaining_generations : Int
  total_generations : Int
  expires_at : String
  product_sku : String
deriving Repr, DecidableEq

structure TokenState where
  token : Option TokenInfo
deriving Repr, DecidableEq

def setToken (_ : TokenState) (t : Option TokenInfo) : TokenState := { token := t }

def clearToken (_ : TokenState) : TokenState := { token := none }

/-- Embedding of decrementCredits: when a token is stored and its
remaining_generations is positive, it is decreased by one with every other
field kept; otherwise the state is unchanged. -/
def decrementCredits (st : TokenState) : TokenState :=
  match st.token with
  | some current =>
      if current.remaining_generations > 0 then
        { token := some { current with
            remaining_generations := current.remaining_generations - 1 } }
      else st
  | none => st

/-- Embedding of hasCredits, parameterized by the Date parse of the
expiry string (none models an invalid date, whose comparison with the
current time is false in JavaScript) and the current time. -/
def hasCredits (parseDate : String → Option Int) (now : Int)
    (st : TokenState) : Bool :=
  match st.token with
  | none => false
  | some t =>
      match parseDate t.expires_at with
      | some e => if e < now then false else decide (t.remaining_generations > 0)
      | none => decide (t.remaining_generations > 0)

/-! ## The device fingerprint (frontend/src/utils/fingerprint.ts)

getDeviceId keeps a module-level cache; on a cache miss it tries the
fingerprinting library and falls back to a stored or freshly generated
random identifier kept in localStorage. -/

structure FpState where
  cachedDeviceId : Option String
  storedDeviceId : Option String
deriving Repr, DecidableEq

/-- Environment of one getDeviceId call: the outcome of the fingerprinting
attempt (none when it throws) and the random tail drawn for a fresh
fallback identifier. -/
structure FpEnv where
  fpResult : Option String
  randomTail : String
deriving Repr, DecidableEq

/-- Embedding of getDeviceId as a state transformer over the cache and the
localStorage entry. -/
def getDeviceId (env : FpEnv) (st : FpState) : String × FpState :=
  match st.cachedDeviceId with
  | some id => (id, st)
  | none =>
      match env.fpResult with
      | some visitorId => (visitorId, { st with cachedDeviceId := some visitorId })
      | none =>
          match st.storedDeviceId with
          | some stored => (stored, { st with cachedDeviceId := some stored })
          | none =>
              let randomId := "fallback_" ++ env.randomTail
              (randomId, { cachedDeviceId := some randomId, storedDeviceId := some randomId })

/-- Results of a sequence of getDeviceId calls in one session. -/
def runDeviceIds (st : FpState) : List FpEnv → List String × FpState
  | [] => ([], st)
  | env :: rest =>
      let p := getDeviceId env st
      let q := runDeviceIds p.2 rest
      (p.1 :: q.1, q.2)

/-! ## The crawl engine

Modelled from the spec: the backend crawl engine (frontier, fetcher, link
extractor, graph builder, job state machine, result assembler) is not part
of the repository sources; the model below follows sections 2 to 5 of the
specification.  Fetching is abstracted by a function from a normalized URL
to the extracted links of the page (none for a fetch failure), as the spec
suggests for testing; URL normalization and the crawl scope are abstract
parameters.  Where the spec leaves latitude, the model resolves it in
favor of the testable properties of section 8: a link target receives a
node (at the depth of the discovering page plus one) only while the page
and depth budgets admit it, and an edge is recorded only when both
endpoint nodes exist.  Page titles are not tracked by any verified
property and are left at none. -/

structure CrawlConfig where
  maxDepth : Nat
  maxPages : Nat
deriving Repr, DecidableEq

structure CrawlState where
  frontier : List (String × Nat)
  nodes : List (String × PageNode)
  edges : List (String × String)
deriving Repr, DecidableEq

/-- Looks up the node stored under a normalized URL key. -/
def nlookup : List (String × PageNode) → String → Option PageNode
  | [], _ => none
  | (k, n) :: rest, u => if k = u then some n else nlookup rest u

/-- Modelled from the spec: a fresh page node keyed and identified by its
normalized URL, discovered at the given depth, with no counted links yet. -/
def mkNode (u : String) (d : Nat) : PageNode :=
  { id := u, url := u, title := none, depth := d,
    outgoing_links := 0, incoming_links := 0 }

/-- Modelled from the spec: addNode of the graph builder, idempotent per
normalized URL with the first call winning, and gated by the page and
depth budgets so the completed result respects them. -/
def addNode (cfg : CrawlConfig) (st : CrawlState) (u : String) (d : Nat) : CrawlState :=
  if (nlookup st.nodes u).isSome then st
  else if st.nodes.length < cfg.maxPages ∧ d ≤ cfg.maxDepth then
    { st with nodes := st.nodes ++ [(u, mkNode u d)] }
  else st

/-- Modelled from the spec: incremental degree accounting for a new edge
from s to t, applied to the node stored under key k. -/
def bumpCounts (s t k : String) (n : PageNode) : PageNode :=
  let n1 := if k = s then { n with outgoing_links := n.outgoing_links + 1 } else n
  if k = t then { n1 with incoming_links := n1.incoming_links + 1 } else n1

/-- Modelled from the spec: addEdge of the graph builder, idempotent per
ordered pair, requiring both endpoint nodes to exist, and incrementally
maintaining the outgoing count of the source and the incoming count of
the target. -/
def addEdge (st : CrawlState) (s t : String) : CrawlState :=
  if (nlookup st.nodes s).isSome ∧ (nlookup st.nodes t).isSome ∧ (s, t) ∉ st.edges then
    { st with
      edges := st.edges ++ [(s, t)]
      nodes := st.nodes.map (fun p => (p.1, bumpCounts s t p.1 p.2)) }
  else st

/-- Modelled from the spec: handling of one extracted link target t of a
page u fetched at depth d.  The target is recorded as a node and the edge
as a link when the budgets admit it; a newly admitted in-scope target is
enqueued on the frontier (admission marks it visited at once, so it is
enqueued at most once). -/
def processTarget (cfg : CrawlConfig) (scope : String → Bool) (u : String) (d : Nat)
    (st : CrawlState) (t : String) : CrawlState :=
  let st1 := addNode cfg st t (d + 1)
  let st2 :=
    if (nlookup st.nodes t).isNone ∧ (nlookup st1.nodes t).isSome ∧ scope t then
      { st1 with frontier := st1.frontier ++ [(t, d + 1)] }
    else st1
  addEdge st2 u t

/-- Modelled from the spec: fetching one dequeued page and feeding its
extracted links to the graph builder and the frontier.  A fetch failure
leaves the node with zero outgoing links and the crawl continues. -/
def stepPage (cfg : CrawlConfig) (web : String → Option (List String))
    (scope : String → Bool) (normalize : String → String)
    (st : CrawlState) (u : String) (d : Nat) : CrawlState :=
  match web u with
  | none => st
  | some rawTargets =>
      (rawTargets.map normalize).foldl (processTarget cfg scope u d) st

/-- Modelled from the spec: the crawl loop draining the frontier in
breadth-first order.  The fuel bounds the number of iterations; the
returned flag tells whether the frontier drained, which decides the
terminal status. -/
def crawlLoop (cfg : CrawlConfig) (web : String → Option (List String))
    (scope : String → Bool) (normalize : String → String) :
    Nat → CrawlState → CrawlState × Bool
  | 0, st => (st, st.frontier.isEmpty)
  | fuel + 1, st =>
      match st.frontier with
      | [] => (st, true)
      | (u, d) :: rest =>
          crawlLoop cfg web scope normalize fuel
            (stepPage cfg web scope normalize { st with frontier := rest } u d)

/-- Modelled from the spec: the initial state, seeded atomically with the
normalized root at depth zero. -/
def seedState (cfg : CrawlConfig) (rootNorm : String) : CrawlState :=
  let st := addNode cfg { frontier := [], nodes := [], edges := [] } rootNorm 0
  if (nlookup st.nodes rootNorm).isSome then { st with frontier := [(rootNorm, 0)] }
  else st

/-- Modelled from the spec: a whole crawl job.  An unreachable root fails
immediately with an empty graph; otherwise the frontier is drained and the
result assembler reads the final graph state.  Exhausted fuel leaves the
job in the crawling status, so completed results are exactly the drained
runs. -/
def crawl (cfg : CrawlConfig) (web : String → Option (List String))
    (scope : String → Bool) (normalize : String → String)
    (root : String) (fuel : Nat) : SitemapResult :=
  let rootNorm := normalize root
  match web rootNorm with
  | none =>
      { status := .failed, root_url := root, total_pages := 0, total_links := 0,
        nodes := [], links := [], crawl_time_seconds := 0,
        error := some "Root URL unreachable" }
  | some _ =>
      let res := crawlLoop cfg web scope normalize fuel (seedState cfg rootNorm)
      { status := if res.2 then .completed else .crawling,
        root_url := root,
        total_pages := res.1.nodes.length,
        total_links := res.1.edges.length,
        nodes := res.1.nodes.map Prod.snd,
        links := res.1.edges.map (fun e => { source := e.1, target := e.2 }),
        crawl_time_seconds := 0,
        error := none }

/-! ## The SitemapGraph link filter (frontend/src/components/SitemapGraph.tsx)

Before handing the data to the force simulation the component copies the
nodes, builds a map from node id to node, and keeps exactly the links
whose source and target ids are in the map. -/

/-- Embedding of the d3Links preparation: the link list handed to the
force simulation.  Membership in the id map of the copied nodes is
membership among the node ids. -/
def d3Links (nodes : List PageNode) (links : List PageLink) : List PageLink :=
  let ids := nodes.map PageNode.id
  (links.filter (fun l => ids.contains l.source && ids.contains l.target)).map
    (fun l => { source := l.source, target := l.target })

/-! ## Lemmas about the node store -/

theorem nlookup_append_some {xs ys : List (String × PageNode)} {k : String}
    {n : PageNode} (h : nlookup xs k = some n) : nlookup (xs ++ ys) k = some n := by
  induction xs with
  | nil => simp [nlookup] at h
  | cons p rest ih =>
      obtain ⟨k2, v⟩ := p
      simp only [nlookup, List.cons_append] at h ⊢
      by_cases hk : k2 = k
      · simpa [hk] using h
      · simp only [if_neg hk] at h ⊢
        exact ih h

theorem nlookup_none_iff {xs : List (String × PageNode)} {k : String} :
    nlookup xs k = none ↔ k ∉ xs.map Prod.fst := by
  induction xs with
  | nil => simp [nlookup]
  | cons p rest ih =>
      obtain ⟨k2, v⟩ := p
      by_cases hk : k2 = k
      · simp [nlookup, hk]
      · simp [nlookup, hk, ih, Ne.symm hk]

theorem nlookup_isSome_iff {xs : List (String × PageNode)} {k : String} :
    (nlookup xs k).isSome = true ↔ k ∈ xs.map Prod.fst := by
  constructor
  · intro h
    by_contra hmem
    rw [← nlookup_none_iff] at hmem
    simp [hmem] at h
  · intro hmem
    cases h : nlookup xs k with
    | some v => rfl
    | none => exact absurd (nlookup_none_iff.mp h) (not_not.mpr hmem)

theorem nlookup_map_bump {s t : String} (xs : List (String × PageNode)) (k : String) :
    nlookup (xs.map (fun p => (p.1, bumpCounts s t p.1 p.2))) k =
      (nlookup xs k).map (bumpCounts s t k) := by
  induction xs with
  | nil => simp [nlookup]
  | cons p rest ih =>
      obtain ⟨k2, v⟩ := p
      by_cases hk : k2 = k
      · subst hk; simp [nlookup]
      · simp [nlookup, hk, ih]

theorem bumpCounts_fields {s t k : String} {n : PageNode} :
    (bumpCounts s t k n).depth = n.depth ∧ (bumpCounts s t k n).id = n.id ∧
    (bumpCounts s t k n).url = n.url ∧ (bumpCounts s t k n).title = n.title := by
  simp only [bumpCounts]
  split_ifs <;> simp

/-! ## Crawl-state invariants -/

/-- Well-formedness of the node store: keys are pairwise distinct, each
stored node is identified by its key with a depth within the budget, and
the page budget is respected. -/
def nodesWellFormed (cfg : CrawlConfig) (st : CrawlState) : Prop :=
  (st.nodes.map Prod.fst).Nodup ∧
  (∀ p ∈ st.nodes, p.2.id = p.1 ∧ p.2.url = p.1 ∧ p.2.depth ≤ cfg.maxDepth) ∧
  st.nodes.length ≤ cfg.maxPages

/-- Every recorded edge references two stored nodes. -/
def edgeEndpointsOk (st : CrawlState) : Prop :=
  ∀ e ∈ st.edges, (nlookup st.nodes e.1).isSome = true ∧ (nlookup st.nodes e.2).isSome = true

def GoodState (cfg : CrawlConfig) (st : CrawlState) : Prop :=
  nodesWellFormed cfg st ∧ edgeEndpointsOk st

/-- Existing bindings survive every crawl operation with their identifying
fields and depth unchanged; only the link counts may move. -/
def bindingPreserved (st st2 : CrawlState) : Prop :=
  ∀ k n, nlookup st.nodes k = some n →
    ∃ n2, nlookup st2.nodes k = some n2 ∧ n2.depth = n.depth ∧ n2.id = n.id ∧
      n2.url = n.url ∧ n2.title = n.title

theorem bindingPreserved_refl (st : CrawlState) : bindingPreserved st st :=
  fun _ n h => ⟨n, h, rfl, rfl, rfl, rfl⟩

theorem bindingPreserved_trans {a b c : CrawlState}
    (h1 : bindingPreserved a b) (h2 : bindingPreserved b c) : bindingPreserved a c := by
  intro k n h
  obtain ⟨m, hm, hd, hi, hu, ht⟩ := h1 k n h
  obtain ⟨m2, hm2, hd2, hi2, hu2, ht2⟩ := h2 k m hm
  exact ⟨m2, hm2, hd2.trans hd, hi2.trans hi, hu2.trans hu, ht2.trans ht⟩

theorem addNode_preserves (cfg : CrawlConfig) (st : CrawlState) (u : String) (d : Nat) :
    bindingPreserved st (addNode cfg st u d) := by
  intro k n h
  unfold addNode
  split
  · exact ⟨n, h, rfl, rfl, rfl, rfl⟩
  · split
    · exact ⟨n, nlookup_append_some h, rfl, rfl, rfl, rfl⟩
    · exact ⟨n, h, rfl, rfl, rfl, rfl⟩

theorem addEdge_preserves (st : CrawlState) (s t : String) :
    bindingPreserved st (addEdge st s t) := by
  intro k n h
  unfold addEdge
  split
  · refine ⟨bumpCounts s t k n, ?_, ?_, ?_, ?_, ?_⟩
    · simpa [nlookup_map_bump] using congrArg (Option.map (bumpCounts s t k)) h
    · exact bumpCounts_fields.1
    · exact bumpCounts_fields.2.1
    · exact bumpCounts_fields.2.2.1
    · exact bumpCounts_fields.2.2.2
  · exact ⟨n, h, rfl, rfl, rfl, rfl⟩

theorem frontierPush_preserves (st : CrawlState) (q : List (String × Nat)) :
    bindingPreserved st { st with frontier := q } :=
  fun _ n h => ⟨n, h, rfl, rfl, rfl, rfl⟩

theorem processTarget_preserves (cfg : CrawlConfig) (scope : String → Bool)
    (u : String) (d : Nat) (st : CrawlState) (t : String) :
    bindingPreserved st (processTarget cfg scope u d st t) := by
  have h1 := addNode_preserves cfg st t (d + 1)
  unfold processTarget
  dsimp only
  split
  · exact bindingPreserved_trans
      (bindingPreserved_trans h1 (frontierPush_preserves _ _)) (addEdge_preserves _ _ _)
  · exact bindingPreserved_trans h1 (addEdge_preserves _ _ _)

theorem foldl_rel {α β : Type} {R : α → α → Prop} {f : α → β → α}
    (htrans : ∀ a b c, R a b → R b c → R a c)
    (hstep : ∀ a b, R a (f a b)) (hrefl : ∀ a, R a a) :
    ∀ (l : List β) (a : α), R a (List.foldl f a l)
  | [], a => hrefl a
  | b :: l, a => htrans _ _ _ (hstep a b) (foldl_rel htrans hstep hrefl l (f a b))

theorem stepPage_preserves (cfg : CrawlConfig) (web : String → Option (List String))
    (scope : String → Bool) (normalize : String → String)
    (st : CrawlState) (u : String) (d : Nat) :
    bindingPreserved st (stepPage cfg web scope normalize st u d) := by
  unfold stepPage
  split
  · exact bindingPreserved_refl st
  · exact foldl_rel (R := bindingPreserved) (fun _ _ _ => bindingPreserved_trans)
      (fun a b => processTarget_preserves cfg scope u d a b) bindingPreserved_refl _ st

theorem crawlLoop_preserves (cfg : CrawlConfig) (web : String → Option (List String))
    (scope : String → Bool) (normalize : String → String) :
    ∀ (fuel : Nat) (st : CrawlState),
      bindingPreserved st (crawlLoop cfg web scope normalize fuel st).1 := by
  intro fuel
  induction fuel with
  | zero => intro st; exact bindingPreserved_refl st
  | succ f ih =>
      intro st
      unfold crawlLoop
      cases hf : st.frontier with
      | nil => exact bindingPreserved_refl st
      | cons p rest =>
          obtain ⟨u, d⟩ := p
          refine bindingPreserved_trans ?_ (ih _)
          exact bindingPreserved_trans (frontierPush_preserves st rest)
            (stepPage_preserves cfg web scope normalize _ u d)

theorem map_fst_bump (s t : String) (xs : List (String × PageNode)) :
    (xs.map (fun p => (p.1, bumpCounts s t p.1 p.2))).map Prod.fst = xs.map Prod.fst := by
  rw [List.map_map]
  rfl

theorem addNode_good {cfg : CrawlConfig} {st : CrawlState} (u : String) (d : Nat)
    (h : GoodState cfg st) : GoodState cfg (addNode cfg st u d) := by
  obtain ⟨⟨hnd, hmem, hlen⟩, hedge⟩ := h
  unfold addNode
  split
  · exact ⟨⟨hnd, hmem, hlen⟩, hedge⟩
  · rename_i hnew
    split
    · rename_i hbudget
      have hku : u ∉ st.nodes.map Prod.fst := by
        rw [← nlookup_none_iff]
        cases hl : nlookup st.nodes u with
        | none => rfl
        | some v => exact absurd (by simp [hl]) hnew
      refine ⟨⟨?_, ?_, ?_⟩, ?_⟩
      · rw [List.map_append]
        refine List.Nodup.append hnd (by simp) ?_
        intro a ha hb
        simp only [List.map_cons, List.map_nil, List.mem_singleton] at hb
        subst hb
        exact hku ha
      · intro p hp
        rcases List.mem_append.mp hp with hp1 | hp2
        · exact hmem p hp1
        · simp only [List.mem_singleton] at hp2
          subst hp2
          exact ⟨rfl, rfl, hbudget.2⟩
      · simpa using hbudget.1
      · intro e he
        obtain ⟨h1, h2⟩ := hedge e he
        obtain ⟨n1, hn1⟩ := Option.isSome_iff_exists.mp h1
        obtain ⟨n2, hn2⟩ := Option.isSome_iff_exists.mp h2
        exact ⟨by simp [nlookup_append_some hn1], by simp [nlookup_append_some hn2]⟩
    · exact ⟨⟨hnd, hmem, hlen⟩, hedge⟩

theorem addEdge_good {cfg : CrawlConfig} {st : CrawlState} (s t : String)
    (h : GoodState cfg st) : GoodState cfg (addEdge st s t) := by
  obtain ⟨⟨hnd, hmem, hlen⟩, hedge⟩ := h
  unfold addEdge
  split
  · rename_i hg
    refine ⟨⟨?_, ?_, ?_⟩, ?_⟩
    · rw [map_fst_bump]
      exact hnd
    · intro p hp
      obtain ⟨q, hq, hpq⟩ := List.mem_map.mp hp
      subst hpq
      obtain ⟨hqid, hqurl, hqd⟩ := hmem q hq
      refine ⟨?_, ?_, ?_⟩
      · rw [bumpCounts_fields.2.1, hqid]
      · rw [bumpCounts_fields.2.2.1, hqurl]
      · rw [bumpCounts_fields.1]
        exact hqd
    · simpa using hlen
    · intro e he
      rcases List.mem_append.mp he with he1 | he2
      · obtain ⟨h1, h2⟩ := hedge e he1
        constructor <;> simp [nlookup_map_bump, *]
      · simp only [List.mem_singleton] at he2
        subst he2
        exact ⟨by simp [nlookup_map_bump, hg.1], by simp [nlookup_map_bump, hg.2.1]⟩
  · exact ⟨⟨hnd, hmem, hlen⟩, hedge⟩

theorem frontierPush_good {cfg : CrawlConfig} {st : CrawlState} (q : List (String × Nat))
    (h : GoodState cfg st) : GoodState cfg { st with frontier := q } := h

theorem processTarget_good {cfg : CrawlConfig} (scope : String → Bool)
    (u : String) (d : Nat) {st : CrawlState} (t : String)
    (h : GoodState cfg st) : GoodState cfg (processTarget cfg scope u d st t) := by
  have h1 : GoodState cfg (addNode cfg st t (d + 1)) := addNode_good t (d + 1) h
  unfold processTarget
  dsimp only
  split
  · exact addEdge_good u t (frontierPush_good _ h1)
  · exact addEdge_good u t h1

theorem foldl_preserve {α β : Type} {P : α → Prop} {f : α → β → α}
    (h : ∀ a b, P a → P (f a b)) : ∀ (l : List β) (a : α), P a → P (List.foldl f a l)
  | [], _, ha => ha
  | b :: l, a, ha => foldl_preserve h l (f a b) (h a b ha)

theorem stepPage_good {cfg : CrawlConfig} (web : String → Option (List String))
    (scope : String → Bool) (normalize : String → String)
    {st : CrawlState} (u : String) (d : Nat)
    (h : GoodState cfg st) : GoodState cfg (stepPage cfg web scope normalize st u d) := by
  unfold stepPage
  split
  · exact h
  · exact foldl_preserve (fun a b => processTarget_good scope u d b) _ st h

theorem crawlLoop_good {cfg : CrawlConfig} (web : String → Option (List String))
    (scope : String → Bool) (normalize : String → String) :
    ∀ (fuel : Nat) (st : CrawlState), GoodState cfg st →
      GoodState cfg (crawlLoop cfg web scope normalize fuel st).1 := by
  intro fuel
  induction fuel with
  | zero => exact fun st h => h
  | succ f ih =>
      intro st h
      unfold crawlLoop
      cases hf : st.frontier with
      | nil => exact h
      | cons p rest =>
          obtain ⟨u, d⟩ := p
          exact ih _ (stepPage_good web scope normalize u d (frontierPush_good rest h))

theorem empty_good {cfg : CrawlConfig} :
    GoodState cfg { frontier := [], nodes := [], edges := [] } := by
  refine ⟨⟨?_, ?_, ?_⟩, ?_⟩ <;> simp [nodesWellFormed, edgeEndpointsOk]

theorem seedState_good {cfg : CrawlConfig} (rootNorm : String) :
    GoodState cfg (seedState cfg rootNorm) := by
  unfold seedState
  dsimp only
  split
  · exact frontierPush_good _ (addNode_good rootNorm 0 empty_good)
  · exact addNode_good rootNorm 0 empty_good

theorem map_snd_id_eq_fst {xs : List (String × PageNode)}
    (h : ∀ p ∈ xs, p.2.id = p.1) : xs.map (fun p => p.2.id) = xs.map Prod.fst := by
  induction xs with
  | nil => rfl
  | cons p rest ih =>
      simp only [List.map_cons]
      rw [h p (List.mem_cons_self p rest), ih (fun q hq => h q (List.mem_cons_of_mem p hq))]

theorem map_snd_url_eq_fst {xs : List (String × PageNode)}
    (h : ∀ p ∈ xs, p.2.url = p.1) : xs.map (fun p => p.2.url) = xs.map Prod.fst := by
  induction xs with
  | nil => rfl
  | cons p rest ih =>
      simp only [List.map_cons]
      rw [h p (List.mem_cons_self p rest), ih (fun q hq => h q (List.mem_cons_of_mem p hq))]

/-- Sample site used to instantiate the crawl theorems: page a links to b
and to itself, page b has no links, everything else is unreachable. -/
def exampleWeb : String → Option (List String) :=
  fun u => if u = "a" then some ["b", "a"] else if u = "b" then some [] else none

theorem string_contains_iff {l : List String} {a : String} :
    l.contains a = true ↔ a ∈ l := by
  induction l with
  | nil => simp
  | cons b rest ih => simp [List.contains_cons, ih]

theorem crawl_failed_empty {cfg : CrawlConfig} {web : String → Option (List String)}
    {scope : String → Bool} {normalize : String → String} {root : String} {fuel : Nat}
    (hw : web (normalize root) = none) :
    (crawl cfg web scope normalize root fuel).nodes = [] ∧
    (crawl cfg web scope normalize root fuel).links = [] := by
  simp only [crawl]
  rw [hw]
  exact ⟨rfl, rfl⟩

theorem crawl_result_graph {cfg : CrawlConfig} {web : String → Option (List String)}
    {scope : String → Bool} {normalize : String → String} {root : String} {fuel : Nat}
    {links0 : List String} (hw : web (normalize root) = some links0) :
    (crawl cfg web scope normalize root fuel).nodes =
      ((crawlLoop cfg web scope normalize fuel (seedState cfg (normalize root))).1.nodes).map
        Prod.snd ∧
    (crawl cfg web scope normalize root fuel).links =
      ((crawlLoop cfg web scope normalize fuel (seedState cfg (normalize root))).1.edges).map
        (fun e => { source := e.1, target := e.2 }) := by
  simp only [crawl]
  rw [hw]
  exact ⟨rfl, rfl⟩

/-- C4: for every completed job, every node of the result has depth at
most the configured max depth and the number of nodes is at most the
configured max page count. -/
theorem crawl_within_budgets (cfg : CrawlConfig) (web : String → Option (List String))
    (scope : String → Bool) (normalize : String → String) (root : String) (fuel : Nat)
    (_hc : (crawl cfg web scope normalize root fuel).status = Status.completed) :
    (∀ n ∈ (crawl cfg web scope normalize root fuel).nodes, n.depth ≤ cfg.maxDepth) ∧
    (crawl cfg web scope normalize root fuel).nodes.length ≤ cfg.maxPages := by
  clear _hc
  cases hw : web (normalize root) with
  | none => simp [(@crawl_failed_empty cfg web scope normalize root fuel hw).1]
  | some links =>
      obtain ⟨⟨hnd, hmem, hlen⟩, _⟩ := @crawlLoop_good cfg web scope normalize fuel
        (seedState cfg (normalize root)) (seedState_good _)
      rw [(@crawl_result_graph cfg web scope normalize root fuel links hw).1]
      constructor
      · intro n hn
        obtain ⟨p, hp, hpn⟩ := List.mem_map.mp hn
        subst hpn
        exact (hmem p hp).2.2
      · simpa using hlen

/-- C4 witness: a two-page site crawled with fuel to spare completes and
respects the budgets. -/
theorem crawl_within_budgets_witness :
    (∀ n ∈ (crawl ⟨3, 100⟩ exampleWeb (fun _ => true) id "a" 5).nodes, n.depth ≤ 3) ∧
    (crawl ⟨3, 100⟩ exampleWeb (fun _ => true) id "a" 5).nodes.length ≤ 100 :=
  crawl_within_budgets ⟨3, 100⟩ exampleWeb (fun _ => true) id "a" 5 (by decide)

/-- C5: in every crawl result no two nodes share the same normalized URL
(the node list is keyed by it, so both the url and the id fields are
pairwise distinct), and once a node exists its depth is never changed by
the rest of the crawl: the first discovery wins. -/
theorem crawl_unique_urls_first_wins :
    (∀ (cfg : CrawlConfig) (web : String → Option (List String))
       (scope : String → Bool) (normalize : String → String) (root : String) (fuel : Nat),
       ((crawl cfg web scope normalize root fuel).nodes.map PageNode.url).Nodup ∧
       ((crawl cfg web scope normalize root fuel).nodes.map PageNode.id).Nodup) ∧
    (∀ (cfg : CrawlConfig) (web : String → Option (List String))
       (scope : String → Bool) (normalize : String → String) (fuel : Nat)
       (st : CrawlState) (k : String) (n : PageNode),
       nlookup st.nodes k = some n →
       ∃ n2, nlookup (crawlLoop cfg web scope normalize fuel st).1.nodes k = some n2 ∧
         n2.depth = n.depth) := by
  constructor
  · intro cfg web scope normalize root fuel
    cases hw : web (normalize root) with
    | none =>
        rw [(@crawl_failed_empty cfg web scope normalize root fuel hw).1]
        simp
    | some links =>
        obtain ⟨⟨hnd, hmem, _⟩, _⟩ := @crawlLoop_good cfg web scope normalize fuel
          (seedState cfg (normalize root)) (seedState_good _)
        rw [(@crawl_result_graph cfg web scope normalize root fuel links hw).1, List.map_map,
          List.map_map]
        constructor
        · show ((crawlLoop cfg web scope normalize fuel
              (seedState cfg (normalize root))).1.nodes.map (fun p => p.2.url)).Nodup
          rw [map_snd_url_eq_fst (fun p hp => (hmem p hp).2.1)]
          exact hnd
        · show ((crawlLoop cfg web scope normalize fuel
              (seedState cfg (normalize root))).1.nodes.map (fun p => p.2.id)).Nodup
          rw [map_snd_id_eq_fst (fun p hp => (hmem p hp).1)]
          exact hnd
  · intro cfg web scope normalize fuel st k n h
    obtain ⟨n2, hn2, hd, _, _, _⟩ :=
      crawlLoop_preserves cfg web scope normalize fuel st k n h
    exact ⟨n2, hn2, hd⟩

/-- C5 witness: the seeded root keeps depth zero through a concrete run. -/
theorem crawl_unique_urls_first_wins_witness :
    ∃ n2, nlookup (crawlLoop ⟨3, 100⟩ exampleWeb (fun _ => true) id 5
        (seedState ⟨3, 100⟩ "a")).1.nodes "a" = some n2 ∧
      n2.depth = (mkNode "a" 0).depth :=
  crawl_unique_urls_first_wins.2 ⟨3, 100⟩ exampleWeb (fun _ => true) id 5
    (seedState ⟨3, 100⟩ "a") "a" (mkNode "a" 0) (by decide)

/-- C6: every link of a crawl result references node ids present in the
node list, and the link set SitemapGraph hands to the force simulation is
exactly the given links whose source and target ids occur among the given
node ids. -/
theorem links_reference_existing_nodes :
    (∀ (cfg : CrawlConfig) (web : String → Option (List String))
       (scope : String → Bool) (normalize : String → String) (root : String) (fuel : Nat),
       ∀ l ∈ (crawl cfg web scope normalize root fuel).links,
         l.source ∈ (crawl cfg web scope normalize root fuel).nodes.map PageNode.id ∧
         l.target ∈ (crawl cfg web scope normalize root fuel).nodes.map PageNode.id) ∧
    (∀ (nodes : List PageNode) (links : List PageLink) (l : PageLink),
       l ∈ d3Links nodes links ↔
         l ∈ links ∧ l.source ∈ nodes.map PageNode.id ∧ l.target ∈ nodes.map PageNode.id) := by
  constructor
  · intro cfg web scope normalize root fuel l hl
    cases hw : web (normalize root) with
    | none =>
        rw [(@crawl_failed_empty cfg web scope normalize root fuel hw).2] at hl
        simp at hl
    | some links =>
        obtain ⟨⟨hnd, hmem, _⟩, hedge⟩ := @crawlLoop_good cfg web scope normalize
          fuel (seedState cfg (normalize root)) (seedState_good _)
        rw [(@crawl_result_graph cfg web scope normalize root fuel links hw).2] at hl
        obtain ⟨e, he, hel⟩ := List.mem_map.mp hl
        subst hel
        obtain ⟨h1, h2⟩ := hedge e he
        rw [(@crawl_result_graph cfg web scope normalize root fuel links hw).1, List.map_map]
        show _ ∈ (crawlLoop cfg web scope normalize fuel
            (seedState cfg (normalize root))).1.nodes.map (fun p => p.2.id) ∧
          _ ∈ (crawlLoop cfg web scope normalize fuel
            (seedState cfg (normalize root))).1.nodes.map (fun p => p.2.id)
        rw [map_snd_id_eq_fst (fun p hp => (hmem p hp).1)]
        exact ⟨nlookup_isSome_iff.mp h1, nlookup_isSome_iff.mp h2⟩
  · intro nodes links l
    have hid : ∀ m : PageLink, ({ source := m.source, target := m.target } : PageLink) = m :=
      fun m => rfl
    unfold d3Links
    dsimp only
    constructor
    · intro h
      obtain ⟨m, hm, hml⟩ := List.mem_map.mp h
      rw [hid m] at hml
      subst hml
      obtain ⟨hmem, hcond⟩ := List.mem_filter.mp hm
      rw [Bool.and_eq_true] at hcond
      exact ⟨hmem, string_contains_iff.mp hcond.1, string_contains_iff.mp hcond.2⟩
    · intro ⟨hmem, hs, ht⟩
      refine List.mem_map.mpr ⟨l, List.mem_filter.mpr ⟨hmem, ?_⟩, hid l⟩
      rw [Bool.and_eq_true]
      exact ⟨string_contains_iff.mpr hs, string_contains_iff.mpr ht⟩

/-- C6 witness: a concrete link of a crawled result references present
ids. -/
theorem links_reference_existing_nodes_witness :
    ({ source := "a", target := "b" } : PageLink).source ∈
      (crawl ⟨3, 100⟩ exampleWeb (fun _ => true) id "a" 5).nodes.map PageNode.id ∧
    ({ source := "a", target := "b" } : PageLink).target ∈
      (crawl ⟨3, 100⟩ exampleWeb (fun _ => true) id "a" 5).nodes.map PageNode.id :=
  links_reference_existing_nodes.1 ⟨3, 100⟩ exampleWeb (fun _ => true) id "a" 5
    { source := "a", target := "b" } (by decide)

/-! ## Claims about the client -/

/-- Crawl result used to instantiate the client theorems. -/
def sampleResult : SitemapResult :=
  { status := .completed, root_url := "https://example.com", total_pages := 0,
    total_links := 0, nodes := [], links := [], crawl_time_seconds := 1, error := none }

/-- C1: the crawl result contract has exactly the fields status, root_url,
total_pages, total_links, nodes, links, crawl_time_seconds and an optional
error; status is one of the four lifecycle strings; node objects carry
exactly id, url, nullable title, depth, outgoing_links and incoming_links
and link objects exactly source and target; and for every HTTP-OK response
carrying a body of this shape, crawlSitemap returns the parsed body
unchanged. -/
theorem crawlSitemap_ok_result_shape :
    (∀ (resp : Response) (r : SitemapResult), resp.ok = true →
       resp.json = some (jsonOfSitemapResult r) →
       crawlSitemap resp = Except.ok (jsonOfSitemapResult r)) ∧
    (∀ r : SitemapResult, (jsonOfSitemapResult r).objKeys =
       ["status", "root_url", "total_pages", "total_links", "nodes", "links",
        "crawl_time_seconds"] ++
       (match r.error with | some _ => ["error"] | none => [])) ∧
    (∀ r : SitemapResult,
       (jsonOfSitemapResult r).getField "status" = some (.str r.status.text) ∧
       r.status.text ∈ (["pending", "crawling", "completed", "failed"] : List String)) ∧
    (∀ (r : SitemapResult) (j : Json), j ∈ r.nodes.map jsonOfPageNode →
       j.objKeys = ["id", "url", "title", "depth", "outgoing_links", "incoming_links"]) ∧
    (∀ (r : SitemapResult) (j : Json), j ∈ r.links.map jsonOfPageLink →
       j.objKeys = ["source", "target"]) := by
  refine ⟨?_, ?_, ?_, ?_, ?_⟩
  · intro resp r hok hj
    simp [crawlSitemap, hok, hj]
  · intro r
    cases he : r.error <;> simp [jsonOfSitemapResult, Json.objKeys, he]
  · intro r
    constructor
    · simp [jsonOfSitemapResult, Json.getField, Json.getField.fieldLookup]
    · cases r.status <;> simp [Status.text]
  · intro r j hj
    obtain ⟨n, _, hn⟩ := List.mem_map.mp hj
    subst hn
    simp [jsonOfPageNode, Json.objKeys]
  · intro r j hj
    obtain ⟨l, _, hl⟩ := List.mem_map.mp hj
    subst hl
    simp [jsonOfPageLink, Json.objKeys]

/-- C1 witness: a concrete ok response with a shaped body is returned
unchanged. -/
theorem crawlSitemap_ok_result_shape_witness :
    crawlSitemap { ok := true, json := some (jsonOfSitemapResult sampleResult) } =
      Except.ok (jsonOfSitemapResult sampleResult) :=
  crawlSitemap_ok_result_shape.1
    { ok := true, json := some (jsonOfSitemapResult sampleResult) } sampleResult rfl rfl

/-- C2: the crawl request carries a required url and optional max_depth
and max_pages; the client defaults are depth 3 and 100 pages, the depth
select offers exactly 1 through 5, and every scan whose url validates
issues exactly one POST of the request body to /api/v1/sitemap/crawl/sync. -/
theorem scan_single_post_and_defaults :
    initialDepth = 3 ∧ initialMaxPages = 100 ∧ depthOptions = [1, 2, 3, 4, 5] ∧
    (∀ (parseURL : String → Option String) (apiBase : String) (depth maxPages : Nat)
       (url u : String), parseURL (toParse url) = some u →
       scanRequests parseURL apiBase depth maxPages url =
         [{ url := apiBase ++ "/api/v1/sitemap/crawl/sync", method := "POST",
            headers := [("Content-Type", "application/json")],
            body := { url := u, max_depth := some depth, max_pages := some maxPages } }]) := by
  refine ⟨rfl, rfl, rfl, ?_⟩
  intro parseURL apiBase depth maxPages url u h
  simp [scanRequests, handleScan, h, crawlSitemapRequest]

/-- C2 witness: scanning example.com issues the single expected POST. -/
theorem scan_single_post_and_defaults_witness :
    scanRequests parseModel "" 3 100 "example.com" =
      [{ url := "" ++ "/api/v1/sitemap/crawl/sync", method := "POST",
         headers := [("Content-Type", "application/json")],
         body := { url := "https://example.com/", max_depth := some 3,
                   max_pages := some 100 } }] :=
  scan_single_post_and_defaults.2.2.2 parseModel "" 3 100 "example.com"
    "https://example.com/" rfl

/-- C3 counterexample: an HTTP-OK response whose body fails to parse makes
crawlSitemap raise (the rejection of response.json() propagates), so the
claimed equivalence raises-iff-not-OK is false at this input. -/
theorem crawlSitemap_raises_on_ok_unparseable :
    ({ ok := true, json := none } : Response).ok = true ∧
    crawlSitemap { ok := true, json := none } = Except.error Raised.parseFailure :=
  ⟨rfl, rfl⟩

/-- Whether the promise of a crawlSitemap call rejects. -/
def raisesError : Except Raised Json → Bool
  | .error _ => true
  | .ok _ => false

/-- C3 amended: crawlSitemap raises exactly on non-OK responses and on OK
responses whose body fails to parse; on a non-OK response the message
equals the body's detail when the body parses with a nonempty string
detail, is Unknown error when the body cannot be parsed, and is Crawl
failed when the parsed non-null body has no detail or an empty one. -/
theorem crawlSitemap_error_semantics (resp : Response) :
    (raisesError (crawlSitemap resp) = true ↔ (resp.ok = false ∨ resp.json = none)) ∧
    (resp.ok = false → resp.json = none →
      crawlSitemap resp = .error (.thrown "Unknown error")) ∧
    (∀ j d, resp.ok = false → resp.json = some j →
      j.getField "detail" = some (.str d) → d ≠ "" →
      crawlSitemap resp = .error (.thrown d)) ∧
    (∀ j, resp.ok = false → resp.json = some j → j ≠ .null →
      j.getField "detail" = none → crawlSitemap resp = .error (.thrown "Crawl failed")) ∧
    (∀ j, resp.ok = false → resp.json = some j →
      j.getField "detail" = some (.str "") →
      crawlSitemap resp = .error (.thrown "Crawl failed")) := by
  obtain ⟨ok, json⟩ := resp
  refine ⟨?_, ?_, ?_, ?_, ?_⟩
  · cases ok with
    | false =>
        cases json with
        | none => simp [crawlSitemap, raisesError]
        | some j => cases j <;> simp [crawlSitemap, raisesError]
    | true =>
        cases json with
        | none => simp [crawlSitemap, raisesError]
        | some j => simp [crawlSitemap, raisesError]
  · intro hok hj
    subst hok
    subst hj
    simp [crawlSitemap]
  · intro j d hok hj hd hne
    subst hok
    subst hj
    cases j with
    | null => simp [Json.getField] at hd
    | obj fields => simp [crawlSitemap, hd, Json.jsTruthy, Json.jsText, hne]
    | bool b => simp [Json.getField] at hd
    | num n => simp [Json.getField] at hd
    | str s => simp [Json.getField] at hd
    | arr xs => simp [Json.getField] at hd
  · intro j hok hj hnn hd
    subst hok
    subst hj
    cases j with
    | null => exact absurd rfl hnn
    | obj fields => simp [crawlSitemap, hd]
    | bool b => simp [crawlSitemap, Json.getField]
    | num n => simp [crawlSitemap, Json.getField]
    | str s => simp [crawlSitemap, Json.getField]
    | arr xs => simp [crawlSitemap, Json.getField]
  · intro j hok hj hd
    subst hok
    subst hj
    cases j with
    | null => simp [Json.getField] at hd
    | obj fields => simp [crawlSitemap, hd, Json.jsTruthy]
    | bool b => simp [Json.getField] at hd
    | num n => simp [Json.getField] at hd
    | str s => simp [Json.getField] at hd
    | arr xs => simp [Json.getField] at hd

/-- C3 witness: a non-OK response with a detail field surfaces it
verbatim. -/
theorem crawlSitemap_error_semantics_witness :
    crawlSitemap { ok := false, json := some (.obj [("detail", Json.str "Invalid URL")]) } =
      Except.error (Raised.thrown "Invalid URL") :=
  (crawlSitemap_error_semantics
      { ok := false, json := some (.obj [("detail", Json.str "Invalid URL")]) }).2.2.1
    (.obj [("detail", Json.str "Invalid URL")]) "Invalid URL" rfl rfl rfl (by decide)

/-- Request the scan handler sends for the input tab-httpz. -/
def httpzRequest : CrawlRequest :=
  { url := "https://httpz/", max_depth := some 3, max_pages := some 100 }

/-- C7 counterexample: for the input tab-httpz the trimmed input starts
with http, so the claim recipe parses the raw input and fails, demanding
an immediate invalid-url error; the code checks the untrimmed input,
prefixes https://, and (tabs being stripped by the URL parser) issues a
crawl request. -/
theorem handleScan_trimmed_claim_fails :
    parseModel (toParseClaim "\thttpz") = none ∧
    handleScan parseModel 3 100 "\thttpz" = .scanned httpzRequest ∧
    scanRequests parseModel "" 3 100 "\thttpz" = [crawlSitemapRequest "" httpzRequest] :=
  ⟨rfl, rfl, rfl⟩

/-- C7 amended: for every input whose handed-to-the-constructor form (the
input, prefixed with https:// exactly when it does not start with http)
cannot be parsed as a URL, the scan handler reports the invalid-url error
and issues no crawl request. -/
theorem handleScan_unparseable_no_request
    (parseURL : String → Option String) (apiBase : String) (depth maxPages : Nat)
    (url : String) (h : parseURL (toParse url) = none) :
    handleScan parseURL depth maxPages url = .invalidUrl ∧
    scanRequests parseURL apiBase depth maxPages url = [] := by
  constructor <;> simp [handleScan, scanRequests, h]

/-- C7 witness: an input with spaces fails validation and sends nothing. -/
theorem handleScan_unparseable_no_request_witness :
    handleScan parseModel 3 100 "ht tp://invalid url with spaces" = .invalidUrl ∧
    scanRequests parseModel "" 3 100 "ht tp://invalid url with spaces" = [] :=
  handleScan_unparseable_no_request parseModel "" 3 100
    "ht tp://invalid url with spaces" rfl

/-- C8: one crawlSitemap invocation performs exactly one request, a POST
whose composition does not depend on the response, and returns the result
of that single response directly: no polling, retry or streaming. -/
theorem crawlSitemap_synchronous_single_request (apiBase : String)
    (request : CrawlRequest) (resp resp2 : Response) :
    (crawlSitemapTrace apiBase request resp).1 = [crawlSitemapRequest apiBase request] ∧
    (crawlSitemapTrace apiBase request resp).1.length = 1 ∧
    (crawlSitemapTrace apiBase request resp).1 = (crawlSitemapTrace apiBase request resp2).1 ∧
    (crawlSitemapTrace apiBase request resp).1.map HttpRequest.method = ["POST"] ∧
    (crawlSitemapTrace apiBase request resp).2 = crawlSitemap resp :=
  ⟨rfl, rfl, rfl, rfl, rfl⟩

/-- C9: the token store never turns a nonnegative credit count negative:
decrementCredits is the identity when no token is stored or no credits
remain, otherwise it lowers remaining_generations by exactly one leaving
every other field unchanged; hasCredits holds exactly when a token is
stored, its expiry is not in the past and credits remain. -/
theorem tokenStore_nonnegative_credits (st : TokenState)
    (parseDate : String → Option Int) (now : Int) :
    (st.token = none → decrementCredits st = st) ∧
    (∀ t, st.token = some t → t.remaining_generations = 0 → decrementCredits st = st) ∧
    (∀ t, st.token = some t → 0 < t.remaining_generations →
      (decrementCredits st).token =
        some { t with remaining_generations := t.remaining_generations - 1 }) ∧
    ((∀ t, st.token = some t → 0 ≤ t.remaining_generations) →
      ∀ t, (decrementCredits st).token = some t → 0 ≤ t.remaining_generations) ∧
    (hasCredits parseDate now st = true ↔
      ∃ t, st.token = some t ∧ ¬(∃ e, parseDate t.expires_at = some e ∧ e < now) ∧
        0 < t.remaining_generations) := by
  obtain ⟨tok⟩ := st
  refine ⟨?_, ?_, ?_, ?_, ?_⟩
  · intro h
    simp only at h
    subst h
    simp [decrementCredits]
  · intro t ht h0
    simp only at ht
    subst ht
    simp [decrementCredits, h0]
  · intro t ht hpos
    simp only at ht
    subst ht
    simp [decrementCredits, hpos]
  · intro hinv t2 ht2
    cases tok with
    | none => simp [decrementCredits] at ht2
    | some t =>
        by_cases hp : t.remaining_generations > 0
        · simp [decrementCredits, hp] at ht2
          subst ht2
          simp only
          omega
        · simp [decrementCredits, hp] at ht2
          subst ht2
          have := hinv t rfl
          omega
  · cases tok with
    | none => simp [hasCredits]
    | some t =>
        cases hp : parseDate t.expires_at with
        | some e =>
            by_cases he : e < now
            · simp [hasCredits, hp, he]
            · simp only [hasCredits, hp, if_neg he, decide_eq_true_eq, Option.some.injEq]
              constructor
              · intro hrem
                refine ⟨t, rfl, ?_, hrem⟩
                rintro ⟨e2, he2, hlt⟩
                rw [hp] at he2
                injection he2 with h
                subst h
                exact he hlt
              · rintro ⟨t2, ht2, _, hrem⟩
                subst ht2
                exact hrem
        | none => simp [hasCredits, hp]

/-- Token used to instantiate the token-store theorem. -/
def tokenExample : TokenInfo :=
  { token := "tok", remaining_generations := 2, total_generations := 5,
    expires_at := "2026-01-01", product_sku := "pack_5" }

/-- C9 witness: decrementing two remaining credits leaves one. -/
theorem tokenStore_nonnegative_credits_witness :
    (decrementCredits { token := some tokenExample }).token =
      some { tokenExample with
        remaining_generations := tokenExample.remaining_generations - 1 } :=
  (tokenStore_nonnegative_credits { token := some tokenExample }
      (fun _ => some 0) 0).2.2.1 tokenExample rfl (by decide)

theorem getDeviceId_cache_post (env : FpEnv) (st : FpState) :
    ((getDeviceId env st).2).cachedDeviceId = some (getDeviceId env st).1 := by
  obtain ⟨c, s⟩ := st
  cases c with
  | some id => simp [getDeviceId]
  | none =>
      cases hf : env.fpResult with
      | some v => simp [getDeviceId, hf]
      | none =>
          cases s with
          | some stored => simp [getDeviceId, hf]
          | none => simp [getDeviceId, hf]

theorem getDeviceId_cache_hit (env : FpEnv) {st : FpState} {x : String}
    (h : st.cachedDeviceId = some x) : getDeviceId env st = (x, st) := by
  obtain ⟨c, s⟩ := st
  simp only at h
  subst h
  simp [getDeviceId]

theorem runDeviceIds_cached {st : FpState} {x : String}
    (h : st.cachedDeviceId = some x) (envs : List FpEnv) :
    (runDeviceIds st envs).1 = List.replicate envs.length x := by
  induction envs with
  | nil => simp [runDeviceIds]
  | cons e es ih =>
      simp only [runDeviceIds, getDeviceId_cache_hit e h, List.length_cons,
        List.replicate_succ]
      exact congrArg (x :: ·) ih

theorem runDeviceIds_shape (st : FpState) (e : FpEnv) (es : List FpEnv) :
    (runDeviceIds st (e :: es)).1 =
      (getDeviceId e st).1 :: List.replicate es.length (getDeviceId e st).1 := by
  simp only [runDeviceIds]
  exact congrArg ((getDeviceId e st).1 :: ·)
    (runDeviceIds_cached (getDeviceId_cache_post e st) es)

/-- C10: getDeviceId is stable within a session: whatever identifier any
call returns, every later call returns the same one. -/
theorem getDeviceId_stable (st : FpState) (envs : List FpEnv) (i j : Nat)
    (_hij : i < j) (hi : i < (runDeviceIds st envs).1.length)
    (hj : j < (runDeviceIds st envs).1.length) :
    (runDeviceIds st envs).1.get ⟨i, hi⟩ = (runDeviceIds st envs).1.get ⟨j, hj⟩ := by
  cases envs with
  | nil => simp [runDeviceIds] at hi
  | cons e es =>
      have hrep : (runDeviceIds st (e :: es)).1 =
          List.replicate (es.length + 1) (getDeviceId e st).1 := by
        rw [runDeviceIds_shape, List.replicate_succ]
      simp [List.get_eq_getElem, hrep]

/-- C10 witness: two calls whose fingerprint attempts would yield
different identifiers still return the first one both times. -/
theorem getDeviceId_stable_witness :
    (runDeviceIds { cachedDeviceId := none, storedDeviceId := none }
        [{ fpResult := some "abc", randomTail := "r1" },
         { fpResult := some "xyz", randomTail := "r2" }]).1.get ⟨0, by decide⟩ =
    (runDeviceIds { cachedDeviceId := none, storedDeviceId := none }
        [{ fpResult := some "abc", randomTail := "r1" },
         { fpResult := some "xyz", randomTail := "r2" }]).1.get ⟨1, by decide⟩ :=
  getDeviceId_stable { cachedDeviceId := none, storedDeviceId := none }
    [{ fpResult := some "abc", randomTail := "r1" },
     { fpResult := some "xyz", randomTail := "r2" }] 0 1
    (by decide) (by decide) (by decide)

end VisualSitemap
